import Mathlib

/-!
Verification of the documentation-generator core (`src/Core.ts`,
`src/Markdown.ts`, `src/Domain.ts`) as a shallow embedding in Lean 4.

The data model is taken from the repository's own rendered declaration
page `docs/modules/Domain.ts.md` and the `Domain` test file, which spell
out every interface and constructor of `Domain.ts` field by field.
The operational code (example extraction, import rewriting, assert-shim
injection, markdown printing, `_config.yml` patching, the type-check
pipeline) is translated function by function from `src/Core.ts` and
`src/Markdown.ts`.

Conventions of the embedding:
* JavaScript strings are modelled by Lean `String` (sequences of code
  points; the UTF-16 coincidence is exact on the Basic Multilingual Plane).
* `NodePath.join`/`NodePath.normalize` (the `join` helper of `Core.ts`) is
  modelled for well-formed path segments (no empty, no `.`/`..`, no
  separator characters): it joins the non-empty segments with `/`.
  `NodePath.sep` is modelled as the POSIX `/`.
* `effect`'s `ReadonlyArray` combinators are modelled by the evident
  `List` functions; its stable `sort` is modelled by `List.mergeSort`.
* Effectful code is modelled by explicit state passing (see `Eff` below)
  or by plain reader-style functions taking the `Config`.
-/

namespace Docgen

/-- The shared attribute set every documented unit carries
(`Documentable` in `Domain.ts`). -/
structure Documentable where
  name : String
  description : Option String
  since : Option String
  deprecated : Bool
  examples : List String
  category : Option String
deriving DecidableEq, Repr

/-- `Method` in `Domain.ts`. -/
structure Method extends Documentable where
  signatures : List String
deriving DecidableEq, Repr

/-- `Property` in `Domain.ts`. -/
structure Property extends Documentable where
  signature : String
deriving DecidableEq, Repr

/-- `Class` in `Domain.ts`. -/
structure Class extends Documentable where
  signature : String
  methods : List Method
  staticMethods : List Method
  properties : List Property
deriving DecidableEq, Repr

/-- `Constant` in `Domain.ts`. -/
structure Constant extends Documentable where
  signature : String
deriving DecidableEq, Repr

/-- `Interface` in `Domain.ts`. -/
structure Interface extends Documentable where
  signature : String
deriving DecidableEq, Repr

/-- `TypeAlias` in `Domain.ts`. -/
structure TypeAlias extends Documentable where
  signature : String
deriving DecidableEq, Repr

/-- `Export` in `Domain.ts`. -/
structure Export extends Documentable where
  signature : String
deriving DecidableEq, Repr

/-- `Namespace` in `Domain.ts`: recursively nested, hence an inductive. -/
inductive Namespace where
  | mk
    (doc : Documentable)
    (interfaces : List Interface)
    (typeAliases : List TypeAlias)
    (namespaces : List Namespace)

/-- The `Documentable` part of a namespace. -/
def Namespace.doc : Namespace → Documentable
  | .mk d _ _ _ => d

/-- The nested interfaces of a namespace. -/
def Namespace.interfaces : Namespace → List Interface
  | .mk _ is _ _ => is

/-- The nested type aliases of a namespace. -/
def Namespace.typeAliases : Namespace → List TypeAlias
  | .mk _ _ ts _ => ts

/-- The nested namespaces of a namespace. -/
def Namespace.namespaces : Namespace → List Namespace
  | .mk _ _ _ ns => ns

/-- `Function` in `Domain.ts`. -/
structure Function extends Documentable where
  signatures : List String
deriving DecidableEq, Repr

/-- `Module` in `Domain.ts`: the root container. -/
structure Module extends Documentable where
  path : List String
  classes : List Class
  interfaces : List Interface
  functions : List Function
  typeAliases : List TypeAlias
  constants : List Constant
  exports : List Export
  namespaces : List Namespace

/-- `createDocumentable` from `Domain.ts`. -/
def createDocumentable (name : String) (description : Option String)
    (since : Option String) (deprecated : Bool) (examples : List String)
    (category : Option String) : Documentable :=
  ⟨name, description, since, deprecated, examples, category⟩

/-- `createModule` from `Domain.ts`. -/
def createModule (documentable : Documentable) (path : List String)
    (classes : List Class) (interfaces : List Interface)
    (functions : List Function) (typeAliases : List TypeAlias)
    (constants : List Constant) (exports : List Export)
    (namespaces : List Namespace) : Module :=
  ⟨documentable, path, classes, interfaces, functions, typeAliases, constants,
    exports, namespaces⟩

/-- `createClass` from `Domain.ts`. -/
def createClass (documentable : Documentable) (signature : String)
    (methods staticMethods : List Method) (properties : List Property) : Class :=
  ⟨documentable, signature, methods, staticMethods, properties⟩

/-- `createConstant` from `Domain.ts`. -/
def createConstant (documentable : Documentable) (signature : String) : Constant :=
  ⟨documentable, signature⟩

/-- `createMethod` from `Domain.ts`. -/
def createMethod (documentable : Documentable) (signatures : List String) : Method :=
  ⟨documentable, signatures⟩

/-- `createProperty` from `Domain.ts`. -/
def createProperty (documentable : Documentable) (signature : String) : Property :=
  ⟨documentable, signature⟩

/-- `createInterface` from `Domain.ts`. -/
def createInterface (documentable : Documentable) (signature : String) : Interface :=
  ⟨documentable, signature⟩

/-- `createFunction` from `Domain.ts`. -/
def createFunction (documentable : Documentable) (signatures : List String) : Function :=
  ⟨documentable, signatures⟩

/-- `createTypeAlias` from `Domain.ts`. -/
def createTypeAlias (documentable : Documentable) (signature : String) : TypeAlias :=
  ⟨documentable, signature⟩

/-- `createExport` from `Domain.ts`. -/
def createExport (documentable : Documentable) (signature : String) : Export :=
  ⟨documentable, signature⟩

/-- `createNamespace` from `Domain.ts`. -/
def createNamespace (documentable : Documentable) (interfaces : List Interface)
    (typeAliases : List TypeAlias) (namespaces : List Namespace) : Namespace :=
  .mk documentable interfaces typeAliases namespaces

/-!  Configuration and file-system values (`Config.ts`, `FileSystem.ts`). -/

/-- The configuration fields of `Config.ts` that the verified functions read. -/
structure Config where
  outDir : String
  projectName : String
  theme : String
  enableSearch : Bool
  projectHomepage : String
deriving DecidableEq, Repr

/-- `FileSystem.File`. -/
structure File where
  path : String
  content : String
  overwrite : Bool
deriving DecidableEq, Repr

/-- `FileSystem.makeFile`. -/
def makeFile (path content : String) (overwrite : Bool) : File :=
  ⟨path, content, overwrite⟩

/-- The `join` helper of `Core.ts` (`NodePath.normalize(NodePath.join(...))`),
modelled for well-formed segments: non-empty arguments joined with `/`
(`NodePath.join` drops empty arguments; `normalize` is the identity on the
already-normal paths this pipeline builds). -/
def pathJoin (segments : List String) : String :=
  String.intercalate "/" (segments.filter (fun s => s ≠ ""))

/-!  Example extraction (`getExampleFiles` in `Core.ts`). -/

/-- The inner `getDocumentableExamples` of `getExampleFiles`: one candidate
file per example string, named `prefix-id-name-index.ts` inside
`outDir/examples`. -/
def getDocumentableExamples (cfg : Config) (modPrefix id : String)
    (documentable : Documentable) : List File :=
  documentable.examples.mapIdx fun i content =>
    makeFile
      (pathJoin [cfg.outDir, "examples",
        modPrefix ++ "-" ++ id ++ "-" ++ documentable.name ++ "-" ++ toString i ++ ".ts"])
      (content ++ "\n")
      true

/-- The body of `getExampleFiles` for one module: module examples, class
methods and static methods, interfaces, type aliases, constants and
functions, in the source's order. -/
def getModuleExampleFiles (cfg : Config) (module : Module) : List File :=
  let modPrefix := String.intercalate "-" module.path
  let moduleExamples := getDocumentableExamples cfg modPrefix "module" module.toDocumentable
  let methods := module.classes.flatMap fun c =>
    List.flatten
      [c.methods.flatMap fun m =>
        getDocumentableExamples cfg modPrefix (c.name ++ "-method") m.toDocumentable,
       c.staticMethods.flatMap fun m =>
        getDocumentableExamples cfg modPrefix (c.name ++ "-staticmethod") m.toDocumentable]
  let interfaces := module.interfaces.flatMap fun i =>
    getDocumentableExamples cfg modPrefix "interface" i.toDocumentable
  let typeAliases := module.typeAliases.flatMap fun t =>
    getDocumentableExamples cfg modPrefix "typealias" t.toDocumentable
  let constants := module.constants.flatMap fun c =>
    getDocumentableExamples cfg modPrefix "constant" c.toDocumentable
  let functions := module.functions.flatMap fun f =>
    getDocumentableExamples cfg modPrefix "function" f.toDocumentable
  List.flatten [moduleExamples, methods, interfaces, typeAliases, constants, functions]

/-- `getExampleFiles` from `Core.ts` (the `Effect.map(Config.Config, ...)`
wrapper becomes an explicit `cfg` argument). -/
def getExampleFiles (cfg : Config) (modules : List Module) : List File :=
  modules.flatMap (getModuleExampleFiles cfg)

/-- The disambiguating role tag a documentable is extracted under: the `id`
strings that `getExampleFiles` passes to `getDocumentableExamples`. -/
inductive Role where
  | module
  | method (className : String)
  | staticMethod (className : String)
  | interface
  | typeAlias
  | constant
  | function
deriving DecidableEq, Repr

/-- The tag string of a role, exactly as `getExampleFiles` builds it. -/
def Role.tag : Role → String
  | .module => "module"
  | .method c => c ++ "-method"
  | .staticMethod c => c ++ "-staticmethod"
  | .interface => "interface"
  | .typeAlias => "typealias"
  | .constant => "constant"
  | .function => "function"

/-- The example-file name scheme of `getExampleFiles`:
`<prefix>-<tag>-<name>-<index>.ts`. -/
def exampleFileName (modPrefix : String) (r : Role) (name : String) (i : Nat) : String :=
  modPrefix ++ "-" ++ r.tag ++ "-" ++ name ++ "-" ++ toString i ++ ".ts"

/-!  The markdown rendering engine (`Markdown.ts`). -/

/-- `bold`. -/
def bold (s : String) : String := "**" ++ s ++ "**"

/-- `fence`. -/
def fence (language content : String) : String :=
  "```" ++ language ++ "\n" ++ content ++ "\n" ++ "```\n\n"

/-- `paragraph` (variadic in the source, a list here). -/
def paragraph (content : List String) : String :=
  "\n" ++ String.join content ++ "\n\n"

/-- `strikethrough`. -/
def strikethrough (content : String) : String := "~~" ++ content ++ "~~"

/-- `createHeader`. -/
def createHeader (level : Nat) (content : String) : String :=
  String.mk (List.replicate level '#') ++ " " ++ content ++ "\n\n"

/-- `h1`. -/
def h1 : String → String := createHeader 1

/-- `h2`. -/
def h2 : String → String := createHeader 2

/-- `h3`. -/
def h3 : String → String := createHeader 3

/-- `h4`. -/
def h4 : String → String := createHeader 4

/-- `getSince`. -/
def getSince : Option String → String
  | none => ""
  | some v => paragraph ["Added in v" ++ v]

/-- `getTitle`. -/
def getTitle (s : String) (deprecated : Bool) (type? : Option String) : String :=
  let name := if s.trim = "hasOwnProperty" then s ++ " (function)" else s
  let title := if deprecated then strikethrough name else name
  match type? with
  | none => title
  | some t => title ++ " " ++ t

/-- `getDescription`. -/
def getDescription (d : Option String) : String := paragraph [d.getD ""]

/-- `getSignature`. -/
def getSignature (s : String) : String :=
  paragraph [bold "Signature"] ++ paragraph [fence "ts" s]

/-- `getSignatures`. -/
def getSignatures (ss : List String) : String :=
  paragraph [bold "Signature"] ++ paragraph [fence "ts" (String.intercalate "\n" ss)]

/-- `getExamples`. -/
def getExamples (es : List String) : String :=
  String.intercalate "\n\n"
    (es.map fun code => paragraph [bold "Example"] ++ paragraph [fence "ts" code])

/-- `getStaticMethod`. -/
def getStaticMethod (m : Method) : String :=
  paragraph
    [h3 (getTitle m.name m.deprecated (some "(static method)")),
     getDescription m.description,
     getSignatures m.signatures,
     getExamples m.examples,
     getSince m.since]

/-- `getMethod`. -/
def getMethod (m : Method) : String :=
  paragraph
    [h3 (getTitle m.name m.deprecated (some "(method)")),
     getDescription m.description,
     getSignatures m.signatures,
     getExamples m.examples,
     getSince m.since]

/-- `getProperty`. -/
def getProperty (p : Property) : String :=
  paragraph
    [h3 (getTitle p.name p.deprecated (some "(property)")),
     getDescription p.description,
     getSignature p.signature,
     getExamples p.examples,
     getSince p.since]

/-- `getStaticMethods`. -/
def getStaticMethods (methods : List Method) : String :=
  String.join (methods.map fun m => getStaticMethod m ++ "\n\n")

/-- `getMethods`. -/
def getMethods (methods : List Method) : String :=
  String.join (methods.map fun m => getMethod m ++ "\n\n")

/-- `getProperties`. -/
def getProperties (properties : List Property) : String :=
  String.join (properties.map fun p => getProperty p ++ "\n\n")

/-- `getModuleDescription`. -/
def getModuleDescription (module : Module) : String :=
  paragraph
    [h2 (getTitle module.name module.deprecated (some "overview")),
     getDescription module.description,
     getExamples module.examples,
     getSince module.since]

/-- `getMeta`: the front-matter block of a module document. -/
def getMeta (title : String) (order : Nat) : String :=
  paragraph
    ["---", "\n", "title: " ++ title, "\n", "nav_order: " ++ toString order, "\n",
     "parent: Modules", "\n", "---"]

/-- `fromClass`. -/
def fromClass (c : Class) : String :=
  paragraph
    [paragraph
      [h2 (getTitle c.name c.deprecated (some "(class)")),
       getDescription c.description,
       getSignature c.signature,
       getExamples c.examples,
       getSince c.since],
     getStaticMethods c.staticMethods,
     getMethods c.methods,
     getProperties c.properties]

/-- `fromConstant`. -/
def fromConstant (c : Constant) : String :=
  paragraph
    [h2 (getTitle c.name c.deprecated none),
     getDescription c.description,
     getSignature c.signature,
     getExamples c.examples,
     getSince c.since]

/-- `fromExport`. -/
def fromExport (e : Export) : String :=
  paragraph
    [h2 (getTitle e.name e.deprecated none),
     getDescription e.description,
     getSignature e.signature,
     getExamples e.examples,
     getSince e.since]

/-- `fromFunction`. -/
def fromFunction (f : Function) : String :=
  paragraph
    [h2 (getTitle f.name f.deprecated none),
     getDescription f.description,
     getSignatures f.signatures,
     getExamples f.examples,
     getSince f.since]

/-- `getHeaderByIndentation`: the explicit nesting-depth guard. The
source's `throw new Error(...)` becomes `Except.error`. -/
def getHeaderByIndentation (indentation : Nat) : Except String (String → String) :=
  match indentation with
  | 0 => .ok h2
  | 1 => .ok h3
  | 2 => .ok h4
  | _ => .error ("Unsupported namespace nesting: " ++ toString (indentation + 1))

/-- `fromInterface`. -/
def fromInterface (i : Interface) (indentation : Nat) : Except String String := do
  let header ← getHeaderByIndentation indentation
  return paragraph
    [header (getTitle i.name i.deprecated (some "(interface)")),
     getDescription i.description,
     getSignature i.signature,
     getExamples i.examples,
     getSince i.since]

/-- `fromTypeAlias`. -/
def fromTypeAlias (ta : TypeAlias) (indentation : Nat) : Except String String := do
  let header ← getHeaderByIndentation indentation
  return paragraph
    [header (getTitle ta.name ta.deprecated (some "(type alias)")),
     getDescription ta.description,
     getSignature ta.signature,
     getExamples ta.examples,
     getSince ta.since]

mutual

/-- `fromNamespace`: renders the namespace's own block, then its
interfaces, type aliases and nested namespaces one indentation level
deeper.  A thrown nesting error propagates in the source's evaluation
order. -/
def fromNamespace : Namespace → Nat → Except String String
  | .mk doc interfaces typeAliases namespaces, indentation => do
    let header ← getHeaderByIndentation indentation
    let own := paragraph
      [header (getTitle doc.name doc.deprecated (some "(namespace)")),
       getDescription doc.description,
       getExamples doc.examples,
       getSince doc.since]
    let interfaceBlocks ← interfaces.mapM fun i => do
      let s ← fromInterface i (indentation + 1)
      return s ++ "\n\n"
    let typeAliasBlocks ← typeAliases.mapM fun ta => do
      let s ← fromTypeAlias ta (indentation + 1)
      return s ++ "\n\n"
    let namespaceBlocks ← fromNamespaceList namespaces (indentation + 1)
    return paragraph
      [own, String.join interfaceBlocks, String.join typeAliasBlocks,
       String.join namespaceBlocks]

/-- The `ReadonlyArray.map` over nested namespaces inside `fromNamespace`
(each block suffixed by two newlines), with errors propagating from the
left as a thrown exception would. -/
def fromNamespaceList : List Namespace → Nat → Except String (List String)
  | [], _ => .ok []
  | n :: ns, indentation => do
    let s ← fromNamespace n indentation
    let rest ← fromNamespaceList ns indentation
    return (s ++ "\n\n") :: rest

end

/-- The `Printable` union of `Markdown.ts`. -/
inductive Printable where
  | cls (c : Class)
  | constant (c : Constant)
  | exp (e : Export)
  | func (f : Function)
  | itf (i : Interface)
  | typeAlias (t : TypeAlias)
  | ns (n : Namespace)

/-- The `Documentable` part of a printable (how `printModule` reads
`.category` and `.name` off the union). -/
def Printable.doc : Printable → Documentable
  | .cls c => c.toDocumentable
  | .constant c => c.toDocumentable
  | .exp e => e.toDocumentable
  | .func f => f.toDocumentable
  | .itf i => i.toDocumentable
  | .typeAlias t => t.toDocumentable
  | .ns n => n.doc

/-- The `name` field of a printable. -/
def Printable.name (p : Printable) : String := p.doc.name

/-- The `category` field of a printable. -/
def Printable.category (p : Printable) : Option String := p.doc.category

/-- `fromPrintable`: the single switch over the union tag. -/
def fromPrintable : Printable → Except String String
  | .cls c => .ok (fromClass c)
  | .constant c => .ok (fromConstant c)
  | .exp e => .ok (fromExport e)
  | .func f => .ok (fromFunction f)
  | .itf i => fromInterface i 0
  | .typeAlias t => fromTypeAlias t 0
  | .ns n => fromNamespace n 0

/-- `getPrintables`: classes, constants, exports, functions, interfaces,
type aliases, namespaces, in the source's flatten order. -/
def getPrintables (module : Module) : List Printable :=
  List.flatten
    [module.classes.map Printable.cls,
     module.constants.map Printable.constant,
     module.exports.map Printable.exp,
     module.functions.map Printable.func,
     module.interfaces.map Printable.itf,
     module.typeAliases.map Printable.typeAlias,
     module.namespaces.map Printable.ns]

/-- Lexicographic less-or-equal on code-point sequences: the model of
`effect`'s `String.Order` (JavaScript `<`/`>` on strings) as the "may stay
before" test a stable sort consults.  Exact on the Basic Multilingual
Plane, where code-point and UTF-16 code-unit order agree. -/
def lexLe : List Char → List Char → Bool
  | [], _ => true
  | _ :: _, [] => false
  | a :: as, b :: bs =>
    if a.toNat < b.toNat then true
    else if b.toNat < a.toNat then false
    else lexLe as bs

/-- `Order.mapInput(String.Order, ([category]) => category)` as a sort test. -/
def categoryLe (a b : String × List Printable) : Bool := lexLe a.1.data b.1.data

/-- `Order.mapInput(String.Order, (printable) => printable.name)` as a sort
test. -/
def nameLe (a b : Printable) : Bool := lexLe a.name.data b.name.data

/-- One step of `ReadonlyArray.groupBy`: append a printable to its
category's group, or open a new group at the end. -/
def addToGroup (key : String) (p : Printable) :
    List (String × List Printable) → List (String × List Printable)
  | [] => [(key, [p])]
  | (k, ps) :: rest =>
    if k = key then (k, ps ++ [p]) :: rest else (k, ps) :: addToGroup key p rest

/-- `ReadonlyArray.groupBy` composed with `ReadonlyRecord.toEntries`:
groups keyed by `category`, absent categories defaulting to `"utils"`;
keys in first-occurrence order, each group in encounter order.  (A
JavaScript record would move integer-like keys to the front, but the
entries are sorted by key right after, and the keys are pairwise
distinct, so that reordering is unobservable.) -/
def groupByCategory (ps : List Printable) : List (String × List Printable) :=
  ps.foldl (fun acc p => addToGroup (p.category.getD "utils") p acc) []

/-- The category groups of a module's printables, sorted by category
name: the `groupBy`/`toEntries`/`sort` chain of `printModule`. -/
def moduleGroups (module : Module) : List (String × List Printable) :=
  (groupByCategory (getPrintables module)).mergeSort categoryLe

/-- The grouped, sorted, rendered body of `printModule` (its `content`
value): groups sorted by category name, printables within a group sorted
stably by name, each group prefixed by an `h1` category heading. -/
def printModuleContent (module : Module) : Except String String := do
  let rendered ← (moduleGroups module).mapM fun g => do
    let blocks ← (g.2.mergeSort nameLe).mapM fromPrintable
    return String.intercalate "\n" (h1 g.1 :: blocks)
  return String.intercalate "\n" rendered

/-- The table-of-contents block of `printModule`; the external
`markdown-toc` collaborator is the `toc` argument. -/
def tableOfContents (toc : String → String) (content : String) : String :=
  "<h2 class=\"text-delta\">Table of contents</h2>\n\n" ++ toc content ++ "\n\n"

/-- `printModule`: front matter, overview, separator, table of contents,
separator, body, all passed through the external `prettier` normalizer
(the `pretty` argument).  `prettier` and `markdown-toc` are external
collaborators, so they are arbitrary-but-fixed function arguments here. -/
def printModule (pretty toc : String → String) (module : Module) (order : Nat) :
    Except String String := do
  let header := getMeta (String.intercalate "/" (module.path.drop 1)) order
  let description := paragraph [getModuleDescription module]
  let content ← printModuleContent module
  return pretty
    (String.intercalate "\n"
      [header, description, "---\n", tableOfContents toc content, "---\n", content])

/-- `getMarkdownOutputPath` from `Core.ts` (`NodePath.sep` modelled as
`/`). -/
def getMarkdownOutputPath (cfg : Config) (module : Module) : String :=
  pathJoin
    [cfg.outDir, "modules", String.intercalate "/" (module.path.drop 1) ++ ".md"]

/-!  Import rewriting (`replaceProjectName` in `Core.ts`).

The source replaces, globally, the regex
`from (?<quote>['"])<project>(?:/lib)?(?:/(?<path>.*))?\k<quote>`
by `from '../../src[/<path>]'`.  The scanner below implements that
regex's leftmost-match, greedy-with-backtracking semantics directly:
at a match position it consumes `from `, a quote, the project name,
then tries, in the engine's backtracking order, `/lib` + `/<path>` +
quote, `/lib` + quote, `/<path>` + quote, quote; `.*` is greedy and does
not cross a newline, so the closing quote of the path branch is the last
same-quote character before the next newline. -/

/-- Consume a literal prefix, returning the remainder. -/
def dropLit : List Char → List Char → Option (List Char)
  | [], cs => some cs
  | _ :: _, [] => none
  | l :: ls, c :: cs => if c = l then dropLit ls cs else none

theorem dropLit_length {lit cs r : List Char} (h : dropLit lit cs = some r) :
    r.length + lit.length = cs.length := by
  induction lit generalizing cs with
  | nil =>
    simp [dropLit] at h
    simp [h]
  | cons l ls ih =>
    cases cs with
    | nil => simp [dropLit] at h
    | cons c cs' =>
      by_cases hc : c = l
      · simp only [dropLit, if_pos hc] at h
        have := ih h
        simp only [List.length_cons]
        omega
      · simp [dropLit, hc] at h

theorem dropLit_append (lit rest : List Char) : dropLit lit (lit ++ rest) = some rest := by
  induction lit with
  | nil => simp [dropLit]
  | cons l ls ih => simp [dropLit, ih]

/-- The index of the last occurrence of `q` before the first newline:
where the greedy `.*` places the closing quote. -/
def lastQuoteIdx (q : Char) : List Char → Option Nat
  | [] => none
  | c :: cs =>
    if c = '\n' then none
    else
      match lastQuoteIdx q cs with
      | some i => some (i + 1)
      | none => if c = q then some 0 else none

theorem lastQuoteIdx_lt {q : Char} {cs : List Char} {i : Nat}
    (h : lastQuoteIdx q cs = some i) : i < cs.length := by
  induction cs generalizing i with
  | nil => simp [lastQuoteIdx] at h
  | cons c cs' ih =>
    simp only [lastQuoteIdx] at h
    by_cases hn : c = '\n'
    · simp [hn] at h
    · simp only [if_neg hn] at h
      cases hq : lastQuoteIdx q cs' with
      | some j =>
        rw [hq] at h
        simp only [Option.some.injEq] at h
        have := ih hq
        simp only [List.length_cons]
        omega
      | none =>
        rw [hq] at h
        by_cases hcq : c = q
        · simp only [if_pos hcq, Option.some.injEq] at h
          simp [← h]
        · simp [hcq] at h

theorem lastQuoteIdx_append {q : Char} (hqn : q ≠ '\n') :
    ∀ {sub : List Char}, q ∉ sub → '\n' ∉ sub →
      lastQuoteIdx q (sub ++ [q]) = some sub.length := by
  intro sub
  induction sub with
  | nil => intro _ _; simp [lastQuoteIdx, hqn]
  | cons c cs ih =>
    intro hq hn
    have h1 : q ∉ cs := fun h => hq (List.mem_cons_of_mem _ h)
    have h2 : '\n' ∉ cs := fun h => hn (List.mem_cons_of_mem _ h)
    have hcn : c ≠ '\n' := fun h => hn (h ▸ List.mem_cons_self _ _)
    simp [lastQuoteIdx, hcn, ih h1 h2]

/-- Greedy capture of `(?<path>.*)` followed by the closing quote. -/
def greedyCapture (q : Char) (cs : List Char) : Option (List Char × List Char) :=
  match lastQuoteIdx q cs with
  | none => none
  | some i => some (cs.take i, cs.drop (i + 1))

theorem greedyCapture_length {q : Char} {cs p rest : List Char}
    (h : greedyCapture q cs = some (p, rest)) : rest.length < cs.length := by
  unfold greedyCapture at h
  cases hq : lastQuoteIdx q cs with
  | none => rw [hq] at h; simp at h
  | some i =>
    rw [hq] at h
    simp only [Option.some.injEq, Prod.mk.injEq] at h
    have hi := lastQuoteIdx_lt hq
    rw [← h.2]
    simp only [List.length_drop]
    omega

theorem greedyCapture_append {q : Char} {sub : List Char} (hqn : q ≠ '\n')
    (hq : q ∉ sub) (hn : '\n' ∉ sub) :
    greedyCapture q (sub ++ [q]) = some (sub, []) := by
  unfold greedyCapture
  rw [lastQuoteIdx_append hqn hq hn]
  refine congrArg some (Prod.ext ?_ ?_)
  · exact List.take_left sub [q]
  · exact List.drop_eq_nil_of_le (by simp)

/-- The empty-path alternative: the closing quote must come right away. -/
def tailEmpty (q : Char) : List Char → Option (Option (List Char) × List Char)
  | [] => none
  | c :: rest => if c = q then some (none, rest) else none

theorem tailEmpty_length {q : Char} {r : List Char} {p : Option (List Char)}
    {rest : List Char} (h : tailEmpty q r = some (p, rest)) :
    rest.length < r.length := by
  cases r with
  | nil => simp [tailEmpty] at h
  | cons c r' =>
    by_cases hc : c = q
    · simp only [tailEmpty, if_pos hc, Option.some.injEq, Prod.mk.injEq] at h
      simp [← h.2]
    · simp [tailEmpty, hc] at h

/-- The `(?:/(?<path>.*))?\k<quote>` part, tried after the optional
`/lib`: a slash plus greedy path, else the empty alternative. -/
def tailNoLib (q : Char) (r : List Char) : Option (Option (List Char) × List Char) :=
  match r with
  | [] => none
  | c :: r5 =>
    if c = '/' then
      match greedyCapture q r5 with
      | some (p, rest) => some (some p, rest)
      | none => tailEmpty q r
    else tailEmpty q r

theorem tailNoLib_length {q : Char} {r : List Char} {p : Option (List Char)}
    {rest : List Char} (h : tailNoLib q r = some (p, rest)) :
    rest.length < r.length := by
  cases r with
  | nil => simp [tailNoLib] at h
  | cons c r5 =>
    by_cases hc : c = '/'
    · simp only [tailNoLib, if_pos hc] at h
      cases hg : greedyCapture q r5 with
      | none =>
        rw [hg] at h
        exact tailEmpty_length h
      | some pr =>
        rw [hg] at h
        obtain ⟨pp, rr⟩ := pr
        simp only [Option.some.injEq, Prod.mk.injEq] at h
        have := greedyCapture_length hg
        rw [← h.2]
        simp only [List.length_cons]
        omega
    · simp only [tailNoLib, if_neg hc] at h
      exact tailEmpty_length h

/-- After the project name: try the `/lib` branch first, backtracking to
the branch without it. -/
def matchTail (q : Char) (r3 : List Char) : Option (Option (List Char) × List Char) :=
  match dropLit "/lib".data r3 with
  | some r4 =>
    match tailNoLib q r4 with
    | some res => some res
    | none => tailNoLib q r3
  | none => tailNoLib q r3

theorem matchTail_length {q : Char} {r3 : List Char} {p : Option (List Char)}
    {rest : List Char} (h : matchTail q r3 = some (p, rest)) :
    rest.length < r3.length := by
  unfold matchTail at h
  cases hd : dropLit "/lib".data r3 with
  | none =>
    rw [hd] at h
    exact tailNoLib_length h
  | some r4 =>
    rw [hd] at h
    dsimp only at h
    cases ht : tailNoLib q r4 with
    | none =>
      rw [ht] at h
      dsimp only at h
      exact tailNoLib_length h
    | some res =>
      rw [ht] at h
      dsimp only at h
      obtain ⟨pp, rr⟩ := res
      simp only [Option.some.injEq, Prod.mk.injEq] at h
      have h4 := tailNoLib_length ht
      have h5 := dropLit_length hd
      rw [← h.2]
      simp only [List.length_cons] at *
      omega

/-- One attempt of the whole import regex at the current position. -/
def tryMatch (projectName : List Char) (cs : List Char) :
    Option (Option (List Char) × List Char) :=
  match dropLit "from ".data cs with
  | none => none
  | some r1 =>
    match r1 with
    | [] => none
    | q :: r2 =>
      if q = '\'' ∨ q = '"' then
        match dropLit projectName r2 with
        | none => none
        | some r3 => matchTail q r3
      else none

theorem tryMatch_length {pn cs : List Char} {p : Option (List Char)}
    {rest : List Char} (h : tryMatch pn cs = some (p, rest)) :
    rest.length < cs.length := by
  unfold tryMatch at h
  cases hd : dropLit "from ".data cs with
  | none => rw [hd] at h; simp at h
  | some r1 =>
    rw [hd] at h
    have h1 := dropLit_length hd
    cases r1 with
    | nil => simp at h
    | cons q r2 =>
      by_cases hq : q = '\'' ∨ q = '"'
      · simp only [if_pos hq] at h
        cases hp : dropLit pn r2 with
        | none => rw [hp] at h; simp at h
        | some r3 =>
          rw [hp] at h
          have h2 := dropLit_length hp
          have h3 := matchTail_length h
          simp only [List.length_cons] at *
          omega
      · simp [hq] at h

/-- The replacement text `from '../../src${groups.path ? /path : ""}'`:
a missing capture, and equally an empty one (falsy in JavaScript), yields
no `/<path>` part. -/
def importReplacement : Option (List Char) → String
  | none => "from '../../src'"
  | some p =>
    "from '../../src" ++ (if p = [] then "" else "/" ++ String.mk p) ++ "'"

/-- The global-replace scan: leftmost match, replace, continue after the
matched span (how a global `String.prototype.replace` proceeds). -/
def replaceGo (pn : List Char) (cs : List Char) : List Char :=
  match cs with
  | [] => []
  | c :: rest0 =>
    match h : tryMatch pn (c :: rest0) with
    | some (path?, rest) => (importReplacement path?).data ++ replaceGo pn rest
    | none => c :: replaceGo pn rest0
termination_by cs.length
decreasing_by
  · exact tryMatch_length h
  · simp

/-- `replaceProjectName` from `Core.ts` (the `Effect.map(Config.Config, ...)`
wrapper becomes the `cfg` argument). -/
def replaceProjectName (cfg : Config) (source : String) : String :=
  String.mk (replaceGo cfg.projectName.data source.data)

/-!  Assert-shim injection (`addAssertImport`, `handleImports`). -/

/-- Substring search: the model of `code.indexOf(needle) !== -1`. -/
def containsSeq (needle : List Char) : List Char → Bool
  | [] => needle.isEmpty
  | c :: cs => needle.isPrefixOf (c :: cs) || containsSeq needle cs

/-- `addAssertImport` from `Core.ts`: prepend the assert import whenever
the text mentions `assert.`. -/
def addAssertImport (code : String) : String :=
  if containsSeq "assert.".data code.data then
    "import * as assert from 'assert'\n" ++ code
  else code

/-- `handleImports` from `Core.ts`: import rewriting, then the assert
shim, on each candidate file. -/
def handleImports (cfg : Config) (files : List File) : List File :=
  files.map fun file =>
    makeFile file.path (addAssertImport (replaceProjectName cfg file.content))
      file.overwrite

/-!  The type-check pipeline (`typeCheckExamples` in `Core.ts`).

The file-system effect is modelled as a state transformer that may fail,
over the one observable the cleanup claim is about: whether the transient
`<outDir>/examples` directory exists.  A failure leaves the state as it
stood (an `ExceptT` over `State`), as a failing `Effect` leaves the real
file system.  `Effect.zipRight` runs its second effect only when the
first one succeeded, and `typeCheckExamples` installs no finalizer. -/

/-- The observable file-system state of a verification run. -/
structure FsState where
  examplesDirExists : Bool
deriving DecidableEq, Repr

/-- The failures the pipeline surfaces (`ExecutionError`/`SpawnError` of
the child-process collaborator, merged: both interrupt the chain the same
way). -/
inductive PipelineError where
  | executionError
deriving DecidableEq, Repr

/-- A pipeline effect: state in, result-or-error and state out. -/
abbrev Eff (α : Type) : Type := FsState → Except PipelineError α × FsState

/-- `Effect.zipRight`: sequence two effects, keep the second result; the
second effect does not run when the first fails. -/
def Eff.zipRight {α β : Type} (x : Eff α) (y : Eff β) : Eff β := fun s =>
  match x s with
  | (Except.ok _, s') => y s'
  | (Except.error e, s') => (Except.error e, s')

/-- `writeExamples`: writing the candidates plus the index file creates
the examples directory. -/
def writeExamplesE (_examples : List File) : Eff Unit := fun s =>
  (Except.ok (), { s with examplesDirExists := true })

/-- `writeTsConfigJson`: writes into the examples directory. -/
def writeTsConfigJsonE : Eff Unit := fun s =>
  (Except.ok (), { s with examplesDirExists := true })

/-- `spawnTsNode`: succeeds, or fails with the execution error the
child-process collaborator reports; either way it does not touch the
directory. -/
def spawnTsNodeE (typeCheckSucceeds : Bool) : Eff Unit := fun s =>
  (if typeCheckSucceeds then Except.ok ()
   else Except.error PipelineError.executionError, s)

/-- `cleanExamples`: removes the examples directory. -/
def cleanExamplesE : Eff Unit := fun s =>
  (Except.ok (), { s with examplesDirExists := false })

/-- `typeCheckExamples` from `Core.ts`, applied to the already extracted
and rewritten candidate list: `cleanExamples` alone when the list is
empty, otherwise write examples, write tsconfig, spawn the type checker
and clean, chained with `zipRight` exactly as in the source. -/
def typeCheckExamples (examples : List File) (typeCheckSucceeds : Bool) : Eff Unit :=
  if examples.length = 0 then cleanExamplesE
  else
    (((writeExamplesE examples).zipRight writeTsConfigJsonE).zipRight
      (spawnTsNodeE typeCheckSucceeds)).zipRight cleanExamplesE

/-!  `_config.yml` handling (`resolveConfigYML`, `getConfigYML`).

The three patches are `m`-flagged, non-global regex replacements; each
rewrites only its first match.  `^…$` under the `m` flag matches within
one line and `.*` does not cross a newline, so the model works on the
list of lines.  The replacement values are taken literally (the theorems
hypothesise them newline-free; JavaScript `$`-escapes in replacement
strings are not modelled). -/

/-- Split a character sequence at every newline (lossless). -/
def splitLinesChars : List Char → List (List Char)
  | [] => [[]]
  | c :: cs =>
    if c = '\n' then [] :: splitLinesChars cs
    else
      match splitLinesChars cs with
      | l :: ls => (c :: l) :: ls
      | [] => [[c]]

/-- Lines of a string. -/
def splitLines (s : String) : List String := (splitLinesChars s.data).map String.mk

/-- Join lines back with newlines (JavaScript `Array.join("\n")`). -/
def joinLines : List String → String
  | [] => ""
  | [l] => l
  | l :: ls => l ++ "\n" ++ joinLines ls

/-- Does a line start with the literal `p` (the anchored `^p` of the
`m`-flag regexes)? -/
def lineStartsWith (p l : String) : Bool := (dropLit p.data l.data).isSome

/-- JavaScript template interpolation of a boolean. -/
def boolString (b : Bool) : String := if b then "true" else "false"

/-- Replace the first line satisfying `pred`: the first match of a
full-line `m`-flag regex. -/
def patchFirst (pred : String → Bool) (newLine : String) : List String → List String
  | [] => []
  | l :: ls => if pred l then newLine :: ls else l :: patchFirst pred newLine ls

/-- After `  '`: a run of non-space characters, then exactly
` on GitHub':` ending the line (`'\S* on GitHub':` followed by the
pattern's `\n`). -/
def githubTail : List Char → Bool
  | [] => false
  | c :: cs =>
    if (c :: cs) = " on GitHub':".data then true
    else if c = ' ' ∨ c = '\t' then false
    else githubTail cs

/-- Does a line match the first line of the aux-link pattern
`^ {2}'\S* on GitHub':`? -/
def isGitHubHeader (l : String) : Bool :=
  match dropLit "  '".data l.data with
  | none => false
  | some rest => githubTail rest

/-- Match ` {4}- '.*'` against the start of the second line: consume
`    - '`, let the greedy `.*` run to the last quote of the line; the
text after that quote lies outside the match and is kept. -/
def githubLineTail (l : String) : Option String :=
  match dropLit "    - '".data l.data with
  | none => none
  | some t =>
    match lastQuoteIdx '\'' t with
    | none => none
    | some k => some (String.mk (t.drop (k + 1)))

/-- Replace the first two-line GitHub aux-link block. -/
def patchGitHub (cfg : Config) : List String → List String
  | [] => []
  | [l] => [l]
  | l1 :: l2 :: rest =>
    if isGitHubHeader l1 then
      match githubLineTail l2 with
      | some keep =>
        ("  '" ++ cfg.projectName ++ " on GitHub':")
          :: ("    - '" ++ cfg.projectHomepage ++ "'" ++ keep) :: rest
      | none => l1 :: patchGitHub cfg (l2 :: rest)
    else l1 :: patchGitHub cfg (l2 :: rest)

/-- `resolveConfigYML` from `Core.ts`: patch the theme line, then the
search-enabled line, then the GitHub aux-link block. -/
def resolveConfigYML (previousContent : String) (cfg : Config) : String :=
  let ls0 := splitLines previousContent
  let ls1 := patchFirst (lineStartsWith "remote_theme:")
    ("remote_theme: " ++ cfg.theme) ls0
  let ls2 := patchFirst (lineStartsWith "search_enabled:")
    ("search_enabled: " ++ boolString cfg.enableSearch) ls1
  joinLines (patchGitHub cfg ls2)

/-- `getHomepageNavigationHeader`. -/
def getHomepageNavigationHeader (cfg : Config) : String :=
  if containsSeq "github".data cfg.projectHomepage.toLower.data then
    cfg.projectName ++ " on GitHub"
  else "Homepage"

/-- `String.stripMargin` of `effect`, per line: strip leading whitespace
up to and including a `|` margin character. -/
def stripMarginLine (l : String) : String :=
  let ws := l.data.takeWhile (fun c => c = ' ' ∨ c = '\t')
  match l.data.drop ws.length with
  | '|' :: tail => String.mk tail
  | _ => l

/-- `String.stripMargin` of `effect`. -/
def stripMargin (s : String) : String :=
  joinLines ((splitLines s).map stripMarginLine)

/-- The `_config.yml` template literal of `getConfigYML` (margins as in
the source, stripped by `stripMargin`). -/
def configYMLTemplate (cfg : Config) : String :=
  stripMargin
    ("|remote_theme: " ++ cfg.theme ++
     "\n                   |\n                   |# Enable or disable the site search" ++
     "\n                   |search_enabled: " ++ boolString cfg.enableSearch ++
     "\n                   |\n                   |# Aux links for the upper right navigation" ++
     "\n                   |aux_links:" ++
     "\n                   |'" ++ getHomepageNavigationHeader cfg ++ "':" ++
     "\n                   |  - '" ++ cfg.projectHomepage ++ "'")

/-- `getConfigYML` from `Core.ts`, given whether `_config.yml` exists and
its previous content: patched in place (and overwritable) when present,
created from the template (not overwritable) when absent. -/
def getConfigYML (cfg : Config) (cwd : String) (fileExists : Bool)
    (previousContent : String) : File :=
  let filePath := pathJoin [cwd, cfg.outDir, "_config.yml"]
  if fileExists then makeFile filePath (resolveConfigYML previousContent cfg) true
  else makeFile filePath (configYMLTemplate cfg) false

/-!  Shared demonstration values for the concrete theorems. -/

/-- A representative configuration. -/
def cfgDemo : Config :=
  ⟨"docs", "my-lib", "mikearnaldi/just-the-docs", true,
    "https://github.com/tylors/effect-docgen"⟩

/-- A constant carrying one example. -/
def constantX : Constant :=
  createConstant (createDocumentable "x" none none false ["const a = 1"] none)
    "declare const x: number"

/-- A module whose only example sits on a constant. -/
def moduleWithOneExample : Module :=
  createModule (createDocumentable "test" none none false [] none)
    ["src", "index.ts"] [] [] [] [] [constantX] [] []

/-!  Claim C1: cleanup of the transient examples directory. -/

/-- Claim C1 is false on the code: when the candidate set is non-empty and
the type-check subprocess fails, `typeCheckExamples` stops at the failed
`zipRight` link and never reaches `cleanExamples` — starting without the
examples directory, the run ends with the directory still on disk
(`examplesDirExists = true`). -/
theorem typeCheckExamples_failure_skips_cleanup :
    typeCheckExamples (getExampleFiles cfgDemo [moduleWithOneExample]) false
        ⟨false⟩
      = (Except.error PipelineError.executionError, ⟨true⟩)
    ∧ getExampleFiles cfgDemo [moduleWithOneExample] ≠ [] := by
  constructor
  · rfl
  · decide

/-- Claim C1 (amended): after a run of `typeCheckExamples` the transient
examples directory is removed when the candidate set was empty and when
the type-check succeeded; on the failure path, however, cleanup is
skipped: the run ends in the execution error with the directory still
present. -/
theorem typeCheckExamples_cleanup (examples : List File) (ok : Bool) (s : FsState) :
    ((examples.length = 0 ∨ ok = true) →
      (typeCheckExamples examples ok s).2.examplesDirExists = false)
    ∧ (examples.length ≠ 0 → ok = false →
      (typeCheckExamples examples ok s).2.examplesDirExists = true
      ∧ (typeCheckExamples examples ok s).1
          = Except.error PipelineError.executionError) := by
  constructor
  · rintro (h | h)
    · simp [typeCheckExamples, h, cleanExamplesE]
    · subst h
      by_cases he : examples.length = 0
      · simp [typeCheckExamples, he, cleanExamplesE]
      · simp [typeCheckExamples, he, Eff.zipRight, writeExamplesE,
          writeTsConfigJsonE, spawnTsNodeE, cleanExamplesE]
  · intro he hok
    subst hok
    simp [typeCheckExamples, he, Eff.zipRight, writeExamplesE,
      writeTsConfigJsonE, spawnTsNodeE, cleanExamplesE]

/-- Claim C1 witness: the amended theorem at concrete inputs. -/
theorem typeCheckExamples_cleanup_witness :
    (typeCheckExamples [] false ⟨true⟩).2.examplesDirExists = false
    ∧ (typeCheckExamples [makeFile "a.ts" "" true] false
        ⟨false⟩).2.examplesDirExists = true :=
  ⟨(typeCheckExamples_cleanup [] false ⟨true⟩).1 (Or.inl rfl),
   ((typeCheckExamples_cleanup [makeFile "a.ts" "" true] false ⟨false⟩).2
     (by decide) rfl).1⟩

/-!  Claim C2: which documentables the extraction visits. -/

/-- An export carrying one example. -/
def exportWithExample : Export :=
  createExport (createDocumentable "flow" none none false ["const y = 2"] none)
    "export declare const flow: <A>(a: A) => A"

/-- A module whose only example sits on an export. -/
def moduleWithExportExample : Module :=
  createModule (createDocumentable "test" none none false [] none)
    ["src", "flow.ts"] [] [] [] [] [] [exportWithExample] []

/-- Claim C2 is false on the code: `getExampleFiles` never visits exports
(nor class properties, namespaces, or a class's own examples) — a module
whose export carries one example yields no candidate file at all. -/
theorem getExampleFiles_misses_exports :
    getExampleFiles cfgDemo [moduleWithExportExample] = []
    ∧ (moduleWithExportExample.exports.flatMap
        (fun e => e.examples)).length = 1 := by
  constructor
  · rfl
  · rfl

/-- Claim C2 (amended): the extraction emits exactly one candidate file
per example string of the documentables it does visit — the module
itself, class methods, class static methods, interfaces, type aliases,
constants and functions — and nothing for any other documentable
(exports, class properties and namespaces are not visited). -/
theorem getExampleFiles_count (cfg : Config) (modules : List Module) :
    (getExampleFiles cfg modules).length
      = (modules.map (fun m =>
          m.examples.length
          + ((m.classes.map (fun c =>
              ((c.methods.map (fun mm => mm.examples.length)).sum
                + (c.staticMethods.map (fun mm => mm.examples.length)).sum))).sum
            + ((m.interfaces.map (fun i => i.examples.length)).sum
              + ((m.typeAliases.map (fun t => t.examples.length)).sum
                + ((m.constants.map (fun c => c.examples.length)).sum
                  + (m.functions.map (fun f => f.examples.length)).sum)))))).sum := by
  simp only [getExampleFiles, List.length_flatMap]
  refine congrArg List.sum (List.map_congr_left fun m _ => ?_)
  simp [getModuleExampleFiles, getDocumentableExamples, List.length_flatMap,
    Function.comp_def]

/-!  Claim C7: determinism of rendering. -/

/-- Claim C7: `printModule` is a pure function of the module value, the
navigation order and the two fixed external collaborators (`prettier`,
`markdown-toc`); two invocations on the same input are one and the same
value, hence byte-identical. -/
theorem printModule_deterministic (pretty toc : String → String)
    (module : Module) (order : Nat) :
    printModule pretty toc module order = printModule pretty toc module order := rfl

/-!  Claim C10: title and output path drop the first path segment. -/

theorem append_md_ne_empty (x : String) : x ++ ".md" ≠ "" := by
  intro h
  have h2 := congrArg (fun s : String => s.data.length) h
  simp only [String.data_append, List.length_append, List.length_cons,
    List.length_nil] at h2
  omega

theorem append_modules_md (a x : String) :
    a ++ "/" ++ "modules" ++ "/" ++ (x ++ ".md") = a ++ "/modules/" ++ x ++ ".md" := by
  have h : ("/" : String) ++ ("modules" ++ ("/" ++ (x ++ ".md")))
      = "/modules/" ++ (x ++ ".md") := by
    rw [← String.append_assoc, ← String.append_assoc]
    exact congrArg (· ++ (x ++ ".md")) rfl
  simp only [String.append_assoc]
  rw [h]

/-- Claim C10: for every module, the front-matter title and the output
file path both derive from `module.path` with the first segment dropped:
the title (the first argument `printModule` hands to `getMeta`) is the
remaining segments joined by `/`, and the file goes to
`<outDir>/modules/<remaining segments joined by the separator>.md`; a
single-segment path therefore gets the empty title and the output path
`<outDir>/modules/.md`. -/
theorem markdownOutputPath_and_title (cfg : Config) (pretty toc : String → String)
    (module : Module) (order : Nat) (hout : cfg.outDir ≠ "") :
    getMarkdownOutputPath cfg module
      = cfg.outDir ++ "/modules/"
          ++ String.intercalate "/" (module.path.drop 1) ++ ".md"
    ∧ printModule pretty toc module order
      = (printModuleContent module).map (fun content =>
          pretty (String.intercalate "\n"
            [getMeta (String.intercalate "/" (module.path.drop 1)) order,
             paragraph [getModuleDescription module], "---\n",
             tableOfContents toc content, "---\n", content]))
    ∧ (∀ s : String, module.path = [s] →
        String.intercalate "/" (module.path.drop 1) = ""
        ∧ getMarkdownOutputPath cfg module = cfg.outDir ++ "/modules/.md") := by
  have hfilter : List.filter (fun s => decide (s ≠ "")) [cfg.outDir, "modules",
      String.intercalate "/" (module.path.drop 1) ++ ".md"]
      = [cfg.outDir, "modules",
        String.intercalate "/" (module.path.drop 1) ++ ".md"] := by
    rw [List.filter_eq_self]
    intro x hx
    simp only [List.mem_cons, List.not_mem_nil, or_false] at hx
    rcases hx with rfl | rfl | rfl
    · simpa using hout
    · decide
    · simpa using append_md_ne_empty (String.intercalate "/" (module.path.drop 1))
  have hpath : getMarkdownOutputPath cfg module
      = cfg.outDir ++ "/modules/"
          ++ String.intercalate "/" (module.path.drop 1) ++ ".md" := by
    rw [getMarkdownOutputPath, pathJoin, hfilter]
    exact append_modules_md cfg.outDir (String.intercalate "/" (module.path.drop 1))
  refine ⟨hpath, ?_, ?_⟩
  · cases hc : printModuleContent module with
    | ok c => simp [printModule, hc, Except.map]
    | error e => simp [printModule, hc, Except.map]
  · intro s hs
    have ht : String.intercalate "/" (module.path.drop 1) = "" := by
      rw [hs]
      rfl
    refine ⟨ht, ?_⟩
    rw [hpath, ht, String.append_empty, String.append_assoc]
    exact congrArg (cfg.outDir ++ ·) rfl

/-- Claim C10 witness: the concrete module `["src", "index.ts"]` with
`outDir = "docs"` lands at `docs/modules/index.ts.md`. -/
theorem markdownOutputPath_and_title_witness :
    getMarkdownOutputPath cfgDemo moduleWithOneExample = "docs/modules/index.ts.md" := by
  have h := (markdownOutputPath_and_title cfgDemo id id moduleWithOneExample 1
    (by decide)).1
  rw [h]
  rfl

/-!  Claim C3: heading depth under namespace nesting. -/

/-- Claim C3: heading depth grows by exactly one level per namespace
nesting level — at nesting level `k` (`k = 0` for a top-level printable)
the header is `createHeader (2 + k)`, i.e. base depth 2 plus one per
level; a namespace nested two levels deep (an outer top-level namespace
containing it) renders its interfaces with the depth-4 header
(`base + 2`); one further nesting level makes the interfaces ask for
depth `base + 3`, which is rejected with the source's
`Unsupported namespace nesting: 4` error instead of being flattened. -/
theorem namespace_heading_depth (outerDoc innerDoc : Documentable) (i : Interface) :
    (∀ k : Nat, k ≤ 2 → getHeaderByIndentation k = Except.ok (createHeader (2 + k)))
    ∧ fromPrintable (Printable.ns (createNamespace outerDoc [] []
        [createNamespace innerDoc [i] [] []]))
      = Except.ok (paragraph
          [paragraph
            [h2 (getTitle outerDoc.name outerDoc.deprecated (some "(namespace)")),
             getDescription outerDoc.description, getExamples outerDoc.examples,
             getSince outerDoc.since],
           "", "",
           paragraph
             [paragraph
               [h3 (getTitle innerDoc.name innerDoc.deprecated (some "(namespace)")),
                getDescription innerDoc.description, getExamples innerDoc.examples,
                getSince innerDoc.since],
              paragraph
                [createHeader (2 + 2) (getTitle i.name i.deprecated (some "(interface)")),
                 getDescription i.description, getSignature i.signature,
                 getExamples i.examples, getSince i.since] ++ "\n\n",
              "", ""] ++ "\n\n"])
    ∧ (∀ (d3 : Documentable) (i3 : Interface),
        fromPrintable (Printable.ns (createNamespace outerDoc [] []
          [createNamespace innerDoc [] [] [createNamespace d3 [i3] [] []]]))
          = Except.error "Unsupported namespace nesting: 4") := by
  refine ⟨?_, ?_, ?_⟩
  · intro k hk
    match k with
    | 0 => rfl
    | 1 => rfl
    | 2 => rfl
  · rfl
  · intro d3 i3
    rfl

/-- A plain documentable for concrete instantiations. -/
def docDemo : Documentable := createDocumentable "A" none (some "1.0.0") false [] none

/-- A plain interface for concrete instantiations. -/
def interfaceDemo : Interface := createInterface docDemo "interface A"

/-- Claim C3 witness: the depth law at the concrete nesting level 2. -/
theorem namespace_heading_depth_witness :
    getHeaderByIndentation 2 = Except.ok (createHeader (2 + 2)) :=
  (namespace_heading_depth docDemo docDemo interfaceDemo).1 2 (by decide)

/-!  Claim C4: injectivity of the example-file naming. -/

/-- A module at path `["a", "b"]` with a constant `x` carrying one
example. -/
def moduleSlashAB : Module :=
  createModule (createDocumentable "m1" none none false [] none) ["a", "b"]
    [] [] [] []
    [createConstant (createDocumentable "x" none none false ["1 + 1"] none)
      "declare const x: number"] [] []

/-- A module at the one-segment path `["a-b"]` with a constant `x`
carrying one example. -/
def moduleDashAB : Module :=
  createModule (createDocumentable "m2" none none false [] none) ["a-b"]
    [] [] [] []
    [createConstant (createDocumentable "x" none none false ["2 + 2"] none)
      "declare const x: number"] [] []

/-- Claim C4 is false on the code: the joined module prefix erases the
segment structure, so the distinct modules `["a", "b"]` and `["a-b"]`
send their `x` constants' examples to the same candidate file name. -/
theorem exampleFileName_collision :
    (getExampleFiles cfgDemo [moduleSlashAB, moduleDashAB]).map File.path
      = ["docs/examples/a-b-constant-x-0.ts", "docs/examples/a-b-constant-x-0.ts"]
    ∧ moduleSlashAB.path ≠ moduleDashAB.path := by
  constructor
  · rfl
  · decide

theorem string_append_right_cancel {a b c : String} (h : a ++ c = b ++ c) :
    a = b := by
  apply String.ext
  have h2 := congrArg String.data h
  simp only [String.data_append] at h2
  exact List.append_cancel_right h2

theorem string_append_left_cancel {a b c : String} (h : a ++ b = a ++ c) :
    b = c := by
  apply String.ext
  have h2 := congrArg String.data h
  simp only [String.data_append] at h2
  exact List.append_cancel_left h2

theorem append_method_ne (c t : String) (ht : t.data.getLast? ≠ some 'd') :
    c ++ "-method" ≠ t := by
  intro h
  have hL : (c ++ "-method").data.getLast? = some 'd' := by
    rw [String.data_append, List.getLast?_append]
    rfl
  exact ht (h ▸ hL)

theorem append_staticmethod_ne (c t : String) (ht : t.data.getLast? ≠ some 'd') :
    c ++ "-staticmethod" ≠ t := by
  intro h
  have hL : (c ++ "-staticmethod").data.getLast? = some 'd' := by
    rw [String.data_append, List.getLast?_append]
    rfl
  exact ht (h ▸ hL)

theorem method_ne_staticmethod (c c' : String) :
    c ++ "-method" ≠ c' ++ "-staticmethod" := by
  intro h
  have h2 := congrArg (fun s : String => s.data.reverse) h
  simp only [String.data_append, List.reverse_append] at h2
  have h3 := congrArg (fun l : List Char => l.take 7) h2
  dsimp only at h3
  rw [List.take_append_of_le_length (by decide),
    List.take_append_of_le_length (by decide)] at h3
  exact absurd h3 (by decide)

/-- The role tag determines the role: equal tags force the same unit kind
and the same owning class. -/
theorem Role.tag_inj : ∀ {r1 r2 : Role}, r1.tag = r2.tag → r1 = r2 := by
  intro r1 r2 h
  cases r1 <;> cases r2 <;>
    first
      | rfl
      | (simp only [Role.tag] at h
         first
           | rfl
           | (exact absurd h (by decide))
           | (exact absurd h (method_ne_staticmethod _ _))
           | (exact absurd h.symm (method_ne_staticmethod _ _))
           | (exact absurd h (append_method_ne _ _ (by decide)))
           | (exact absurd h.symm (append_method_ne _ _ (by decide)))
           | (exact absurd h (append_staticmethod_ne _ _ (by decide)))
           | (exact absurd h.symm (append_staticmethod_ne _ _ (by decide)))
           | (rw [string_append_right_cancel h]))

/-- Claim C4 (amended): the naming scheme is not injective over the whole
extraction set — hyphens inside path segments or names can make distinct
pairs collide (see the counterexample) — but within one module prefix it
does separate kinds and owners: two entries with the same name and the
same example index whose role tags differ (different unit kind, or
methods/static methods of different classes) always receive different
file names, and `getDocumentableExamples` names files by exactly this
scheme. -/
theorem exampleFileName_role_injective (modPrefix name : String) (i : Nat)
    (r1 r2 : Role) (h : r1 ≠ r2) :
    exampleFileName modPrefix r1 name i ≠ exampleFileName modPrefix r2 name i
    ∧ ∀ (cfg : Config) (d : Documentable),
        getDocumentableExamples cfg modPrefix r1.tag d
          = d.examples.mapIdx fun k content =>
              makeFile (pathJoin [cfg.outDir, "examples",
                exampleFileName modPrefix r1 d.name k]) (content ++ "\n") true := by
  constructor
  · intro he
    apply h
    apply Role.tag_inj
    unfold exampleFileName at he
    have h1 := string_append_right_cancel he
    have h2 := string_append_right_cancel h1
    have h3 := string_append_right_cancel h2
    have h4 := string_append_right_cancel h3
    have h5 := string_append_right_cancel h4
    exact string_append_left_cancel h5
  · intro cfg d
    rfl

/-- Claim C4 witness: the scheme separates a constant and a function both
named `x` under the same module prefix. -/
theorem exampleFileName_role_injective_witness :
    exampleFileName "src-a" Role.constant "x" 0
      ≠ exampleFileName "src-a" Role.function "x" 0 :=
  (exampleFileName_role_injective "src-a" "x" 0 Role.constant Role.function
    (by decide)).1

/-!  Claim C5: import rewriting. -/

theorem replaceGo_match {pn : List Char} {c : Char} {cs : List Char}
    {p : Option (List Char)} {rest : List Char}
    (h : tryMatch pn (c :: cs) = some (p, rest)) :
    replaceGo pn (c :: cs) = (importReplacement p).data ++ replaceGo pn rest := by
  rw [replaceGo]
  split
  · rename_i p' rest' h'
    rw [h] at h'
    simp only [Option.some.injEq, Prod.mk.injEq] at h'
    rw [h'.1, h'.2]
  · rename_i h'
    rw [h] at h'
    simp at h'

theorem replaceGo_nil (pn : List Char) : replaceGo pn [] = [] := by
  rw [replaceGo]

theorem replaceGo_eq_of_tryMatch {pn cs : List Char} {p : Option (List Char)}
    {rest : List Char} (hne : cs ≠ []) (h : tryMatch pn cs = some (p, rest)) :
    replaceGo pn cs = (importReplacement p).data ++ replaceGo pn rest := by
  cases cs with
  | nil => exact absurd rfl hne
  | cons c cs' => exact replaceGo_match h

theorem tailNoLib_slash (q : Char) (sub : List Char) (hqn : q ≠ '\n')
    (hqs : q ∉ sub) (hns : '\n' ∉ sub) :
    tailNoLib q ('/' :: (sub ++ [q])) = some (some sub, []) := by
  unfold tailNoLib
  dsimp only
  rw [if_pos rfl, greedyCapture_append hqn hqs hns]

theorem matchTail_slash (q : Char) (sub : List Char) (hqn : q ≠ '\n')
    (hqs : q ∉ sub) (hns : '\n' ∉ sub) :
    matchTail q ("/lib/".data ++ (sub ++ [q])) = some (some sub, []) := by
  unfold matchTail
  have e2 : "/lib/".data ++ (sub ++ [q]) = "/lib".data ++ ('/' :: (sub ++ [q])) := by
    simp
  rw [e2, dropLit_append]
  dsimp only
  rw [tailNoLib_slash q sub hqn hqs hns]

theorem tryMatch_sub (q : Char) (hq : q = '\'' ∨ q = '"') (sub : List Char)
    (hqs : q ∉ sub) (hns : '\n' ∉ sub) :
    tryMatch "my-lib".data
        ("from ".data ++ q :: ("my-lib/lib/".data ++ (sub ++ [q])))
      = some (some sub, []) := by
  have hqn : q ≠ '\n' := by rcases hq with rfl | rfl <;> decide
  unfold tryMatch
  rw [dropLit_append]
  dsimp only
  rw [if_pos hq]
  have e1 : "my-lib/lib/".data ++ (sub ++ [q])
      = "my-lib".data ++ ("/lib/".data ++ (sub ++ [q])) := by
    simp
  rw [e1, dropLit_append]
  dsimp only
  rw [matchTail_slash q sub hqn hqs hns]

theorem tailEmpty_quote (q : Char) : tailEmpty q [q] = some (none, []) := by
  unfold tailEmpty
  dsimp only
  rw [if_pos rfl]

theorem tryMatch_bare (q : Char) (hq : q = '\'' ∨ q = '"') :
    tryMatch "my-lib".data ("from ".data ++ q :: ("my-lib".data ++ [q]))
      = some (none, []) := by
  have hq' : q ≠ '/' := by rcases hq with rfl | rfl <;> decide
  unfold tryMatch
  rw [dropLit_append]
  dsimp only
  rw [if_pos hq, dropLit_append]
  dsimp only
  unfold matchTail
  have hd : dropLit "/lib".data [q] = none := by
    simp [dropLit, hq']
  rw [hd]
  dsimp only
  unfold tailNoLib
  dsimp only
  rw [if_neg hq', tailEmpty_quote q]

/-- Claim C5: rewriting with project name `my-lib` maps
`from <q>my-lib/lib/<sub><q>` to `from '../../src/<sub>'` and
`from <q>my-lib<q>` to `from '../../src'`, for either quote style `q` and
any non-empty subpath `sub` (free of the quote character and of
newlines); an empty captured subpath (input `from <q>my-lib/lib/<q>`) is
falsy in the replacement callback and yields `from '../../src'` with no
trailing slash. -/
theorem replaceProjectName_rewrite (cfg : Config) (q : Char) (sub : String)
    (hp : cfg.projectName = "my-lib") (hq : q = '\'' ∨ q = '"')
    (hne : sub ≠ "") (hsub : ∀ c ∈ sub.data, c ≠ q ∧ c ≠ '\n') :
    replaceProjectName cfg
        ("from " ++ String.mk [q] ++ "my-lib/lib/" ++ sub ++ String.mk [q])
      = "from '../../src/" ++ sub ++ "'"
    ∧ replaceProjectName cfg ("from " ++ String.mk [q] ++ "my-lib" ++ String.mk [q])
      = "from '../../src'"
    ∧ replaceProjectName cfg
        ("from " ++ String.mk [q] ++ "my-lib/lib/" ++ String.mk [q])
      = "from '../../src'" := by
  have hqs : q ∉ sub.data := fun hmem => ((hsub q hmem).1 rfl)
  have hns : '\n' ∉ sub.data := fun hmem => ((hsub '\n' hmem).2 rfl)
  refine ⟨?_, ?_, ?_⟩
  · rw [replaceProjectName, hp]
    have hdata : ("from " ++ String.mk [q] ++ "my-lib/lib/" ++ sub
        ++ String.mk [q]).data
        = "from ".data ++ q :: ("my-lib/lib/".data ++ (sub.data ++ [q])) := by
      simp [String.data_append]
    rw [hdata,
      replaceGo_eq_of_tryMatch (by simp) (tryMatch_sub q hq sub.data hqs hns),
      replaceGo_nil, List.append_nil]
    show importReplacement (some sub.data) = "from '../../src/" ++ sub ++ "'"
    have hd : sub.data ≠ [] := fun h0 => hne (String.ext h0)
    rw [importReplacement, if_neg hd, ← String.append_assoc]
    rfl
  · rw [replaceProjectName, hp]
    have hdata : ("from " ++ String.mk [q] ++ "my-lib" ++ String.mk [q]).data
        = "from ".data ++ q :: ("my-lib".data ++ [q]) := by
      simp [String.data_append]
    rw [hdata, replaceGo_eq_of_tryMatch (by simp) (tryMatch_bare q hq),
      replaceGo_nil, List.append_nil]
    rfl
  · rw [replaceProjectName, hp]
    have hdata : ("from " ++ String.mk [q] ++ "my-lib/lib/" ++ String.mk [q]).data
        = "from ".data ++ q :: ("my-lib/lib/".data ++ (([] : List Char) ++ [q])) := by
      simp [String.data_append]
    rw [hdata,
      replaceGo_eq_of_tryMatch (by simp)
        (tryMatch_sub q hq [] (List.not_mem_nil q) (List.not_mem_nil '\n')),
      replaceGo_nil, List.append_nil]
    rfl

/-- Claim C5 witness: the two concrete double-quoted imports of the
specification, plus the empty-subpath edge. -/
theorem replaceProjectName_rewrite_witness :
    replaceProjectName cfgDemo "from \"my-lib/lib/sub\"" = "from '../../src/sub'"
    ∧ replaceProjectName cfgDemo "from \"my-lib\"" = "from '../../src'"
    ∧ replaceProjectName cfgDemo "from \"my-lib/lib/\"" = "from '../../src'" := by
  have h := replaceProjectName_rewrite cfgDemo '"' "sub" rfl (Or.inr rfl)
    (by decide) (by decide)
  exact ⟨h.1, h.2.1, h.2.2⟩

/-!  Claim C6: the assert-shim injection. -/

theorem containsSeq_correct (needle hay : List Char) :
    containsSeq needle hay = true ↔ needle <:+: hay := by
  induction hay with
  | nil => simp [containsSeq, List.infix_nil, List.isEmpty_iff]
  | cons c cs ih =>
    simp [containsSeq, List.infix_cons_iff, ih, List.isPrefixOf_iff_prefix,
      Bool.or_eq_true]

/-- A candidate that already imports the assertion utility and also
references it by name. -/
def assertSelfImport : String := "import * as assert from 'assert'\nassert.ok(1)"

/-- Claim C6 is false on the code: `addAssertImport` tests only whether
the text mentions `assert.`, never whether an import is already present —
a candidate that already imports the assertion utility is not left
unchanged but receives a second, duplicate import line. -/
theorem addAssertImport_duplicates :
    addAssertImport assertSelfImport
      = "import * as assert from 'assert'\n" ++ assertSelfImport
    ∧ addAssertImport assertSelfImport ≠ assertSelfImport := by
  constructor
  · rfl
  · decide

/-- Claim C6 (amended): the assert import is prepended if and only if the
candidate's text contains the substring `assert.`, regardless of any
already-present import; a candidate without that substring is left
unchanged. -/
theorem addAssertImport_spec (code : String) :
    ("assert.".data <:+: code.data →
      addAssertImport code = "import * as assert from 'assert'\n" ++ code)
    ∧ (¬ "assert.".data <:+: code.data → addAssertImport code = code) := by
  constructor
  · intro h
    rw [addAssertImport, if_pos ((containsSeq_correct _ _).mpr h)]
  · intro h
    rw [addAssertImport, if_neg]
    simp only [containsSeq_correct]
    exact h

/-- Claim C6 witness: the amended rule at two concrete candidates. -/
theorem addAssertImport_spec_witness :
    addAssertImport "assert.ok(1)"
      = "import * as assert from 'assert'\n" ++ "assert.ok(1)"
    ∧ addAssertImport "const a = 1" = "const a = 1" :=
  ⟨(addAssertImport_spec "assert.ok(1)").1
      ((containsSeq_correct _ _).mp (by decide)),
   (addAssertImport_spec "const a = 1").2
      (fun hin => absurd ((containsSeq_correct _ _).mpr hin) (by decide))⟩

/-!  Claim C8: grouping and ordering of the rendered body. -/

theorem lexLe_rfl (a : List Char) : lexLe a a = true := by
  induction a with
  | nil => rfl
  | cons x xs ih =>
    simp only [lexLe, lt_irrefl, if_false]
    exact ih

theorem lexLe_trans : ∀ (a b c : List Char),
    lexLe a b = true → lexLe b c = true → lexLe a c = true := by
  intro a
  induction a with
  | nil => intro b c _ _; rfl
  | cons x xs ih =>
    intro b c hab hbc
    cases b with
    | nil => simp [lexLe] at hab
    | cons y ys =>
      cases c with
      | nil => simp [lexLe] at hbc
      | cons z zs =>
        simp only [lexLe] at hab hbc ⊢
        have hab' : x.toNat < y.toNat
            ∨ (x.toNat = y.toNat ∧ lexLe xs ys = true) := by
          by_cases hlt : x.toNat < y.toNat
          · exact Or.inl hlt
          · rw [if_neg hlt] at hab
            by_cases hgt : y.toNat < x.toNat
            · rw [if_pos hgt] at hab
              exact absurd hab (by simp)
            · rw [if_neg hgt] at hab
              exact Or.inr ⟨by omega, hab⟩
        have hbc' : y.toNat < z.toNat
            ∨ (y.toNat = z.toNat ∧ lexLe ys zs = true) := by
          by_cases hlt : y.toNat < z.toNat
          · exact Or.inl hlt
          · rw [if_neg hlt] at hbc
            by_cases hgt : z.toNat < y.toNat
            · rw [if_pos hgt] at hbc
              exact absurd hbc (by simp)
            · rw [if_neg hgt] at hbc
              exact Or.inr ⟨by omega, hbc⟩
        rcases hab' with hlt1 | ⟨heq1, hxs⟩ <;> rcases hbc' with hlt2 | ⟨heq2, hys⟩
        · rw [if_pos (by omega)]
        · rw [if_pos (by omega)]
        · rw [if_pos (by omega)]
        · rw [if_neg (by omega), if_neg (by omega)]
          exact ih ys zs hxs hys

theorem lexLe_total : ∀ (a b : List Char), (lexLe a b || lexLe b a) = true := by
  intro a
  induction a with
  | nil => intro b; simp [lexLe]
  | cons x xs ih =>
    intro b
    cases b with
    | nil => simp [lexLe]
    | cons y ys =>
      simp only [lexLe]
      by_cases hlt : x.toNat < y.toNat
      · rw [if_pos hlt]
        simp
      · by_cases hgt : y.toNat < x.toNat
        · rw [if_neg hlt, if_pos hgt, if_pos hgt]
          simp
        · rw [if_neg hlt, if_neg hgt, if_neg (by omega), if_neg (by omega)]
          exact ih ys

theorem nameLe_trans (a b c : Printable) :
    nameLe a b = true → nameLe b c = true → nameLe a c = true :=
  lexLe_trans _ _ _

theorem nameLe_total (a b : Printable) : (nameLe a b || nameLe b a) = true :=
  lexLe_total _ _

theorem categoryLe_trans (a b c : String × List Printable) :
    categoryLe a b = true → categoryLe b c = true → categoryLe a c = true :=
  lexLe_trans _ _ _

theorem categoryLe_total (a b : String × List Printable) :
    (categoryLe a b || categoryLe b a) = true :=
  lexLe_total _ _

theorem except_bind_pure_map {ε α β : Type} (x : Except ε α) (f : α → β) :
    (do let a ← x; return f a) = x.map f := by
  cases x <;> rfl

theorem addToGroup_cons_eq {ka : String} {psa : List Printable}
    {rest : List (String × List Printable)} {k : String} {p : Printable}
    (hk : ka = k) :
    addToGroup k p ((ka, psa) :: rest) = (ka, psa ++ [p]) :: rest := by
  simp [addToGroup, hk]

theorem addToGroup_cons_ne {ka : String} {psa : List Printable}
    {rest : List (String × List Printable)} {k : String} {p : Printable}
    (hk : ¬ ka = k) :
    addToGroup k p ((ka, psa) :: rest) = (ka, psa) :: addToGroup k p rest := by
  simp [addToGroup, hk]

theorem addToGroup_keys {acc : List (String × List Printable)} {k : String}
    {p : Printable}
    (hacc : ∀ g ∈ acc, ∀ q ∈ g.2, q.category.getD "utils" = g.1)
    (hp : p.category.getD "utils" = k) :
    ∀ g ∈ addToGroup k p acc, ∀ q ∈ g.2, q.category.getD "utils" = g.1 := by
  induction acc with
  | nil =>
    intro g hg q hq
    simp only [addToGroup, List.mem_singleton] at hg
    subst hg
    simp only [List.mem_singleton] at hq
    subst hq
    exact hp
  | cons a rest ih =>
    obtain ⟨ka, psa⟩ := a
    intro g hg q hq
    by_cases hk : ka = k
    · rw [addToGroup_cons_eq hk] at hg
      rcases List.mem_cons.mp hg with heq | hg'
      · subst heq
        simp only [List.mem_append, List.mem_singleton] at hq
        rcases hq with hq | hq
        · exact hacc (ka, psa) (List.mem_cons_self _ _) q hq
        · subst hq
          rw [hp, hk]
      · exact hacc g (List.mem_cons_of_mem _ hg') q hq
    · rw [addToGroup_cons_ne hk] at hg
      rcases List.mem_cons.mp hg with heq | hg'
      · subst heq
        exact hacc (ka, psa) (List.mem_cons_self _ _) q hq
      · exact ih (fun g' hg'' => hacc g' (List.mem_cons_of_mem _ hg'')) g hg' q hq

theorem groupFold_keys : ∀ (ps : List Printable)
    (acc : List (String × List Printable)),
    (∀ g ∈ acc, ∀ q ∈ g.2, q.category.getD "utils" = g.1) →
    ∀ g ∈ ps.foldl (fun acc p => addToGroup (p.category.getD "utils") p acc) acc,
      ∀ q ∈ g.2, q.category.getD "utils" = g.1 := by
  intro ps
  induction ps with
  | nil => intro acc hacc; exact hacc
  | cons p ps' ih =>
    intro acc hacc
    exact ih _ (addToGroup_keys hacc rfl)

theorem addToGroup_sublist {acc : List (String × List Printable)}
    {l : List Printable} {k : String} {p : Printable}
    (hacc : ∀ g ∈ acc, g.2.Sublist l) :
    ∀ g ∈ addToGroup k p acc, g.2.Sublist (l ++ [p]) := by
  induction acc with
  | nil =>
    intro g hg
    simp only [addToGroup, List.mem_singleton] at hg
    subst hg
    exact List.Sublist.append (List.nil_sublist l) (List.Sublist.refl [p])
  | cons a rest ih =>
    obtain ⟨ka, psa⟩ := a
    intro g hg
    by_cases hk : ka = k
    · rw [addToGroup_cons_eq hk] at hg
      rcases List.mem_cons.mp hg with heq | hg'
      · subst heq
        exact List.Sublist.append
          (hacc (ka, psa) (List.mem_cons_self _ _)) (List.Sublist.refl [p])
      · exact ((hacc g (List.mem_cons_of_mem _ hg')).trans
          (List.sublist_append_left l [p]))
    · rw [addToGroup_cons_ne hk] at hg
      rcases List.mem_cons.mp hg with heq | hg'
      · subst heq
        exact ((hacc (ka, psa) (List.mem_cons_self _ _)).trans
          (List.sublist_append_left l [p]))
      · exact ih (fun g' hg'' => hacc g' (List.mem_cons_of_mem _ hg'')) g hg'

theorem groupFold_sublist : ∀ (ps : List Printable)
    (acc : List (String × List Printable)) (l : List Printable),
    (∀ g ∈ acc, g.2.Sublist l) →
    ∀ g ∈ ps.foldl (fun acc p => addToGroup (p.category.getD "utils") p acc) acc,
      g.2.Sublist (l ++ ps) := by
  intro ps
  induction ps with
  | nil =>
    intro acc l hacc g hg
    simpa using hacc g hg
  | cons p ps' ih =>
    intro acc l hacc g hg
    have h := ih _ (l ++ [p]) (addToGroup_sublist hacc) g hg
    simpa using h

theorem addToGroup_mem {acc : List (String × List Printable)} {k : String}
    {p q : Printable}
    (h : (∃ g ∈ acc, q ∈ g.2) ∨ q = p) :
    ∃ g ∈ addToGroup k p acc, q ∈ g.2 := by
  induction acc with
  | nil =>
    refine ⟨(k, [p]), by simp [addToGroup], ?_⟩
    rcases h with ⟨g, hg, _⟩ | hqp
    · exact absurd hg (List.not_mem_nil g)
    · simp [hqp]
  | cons a rest ih =>
    obtain ⟨ka, psa⟩ := a
    by_cases hk : ka = k
    · rw [addToGroup_cons_eq hk]
      rcases h with ⟨g, hg, hq⟩ | hqp
      · rcases List.mem_cons.mp hg with heq | hg'
        · refine ⟨(ka, psa ++ [p]), List.mem_cons_self _ _, ?_⟩
          rw [heq] at hq
          simp only [List.mem_append]
          exact Or.inl hq
        · exact ⟨g, List.mem_cons_of_mem _ hg', hq⟩
      · exact ⟨(ka, psa ++ [p]), List.mem_cons_self _ _, by simp [hqp]⟩
    · rw [addToGroup_cons_ne hk]
      rcases h with ⟨g, hg, hq⟩ | hqp
      · rcases List.mem_cons.mp hg with heq | hg'
        · refine ⟨(ka, psa), List.mem_cons_self _ _, ?_⟩
          rw [heq] at hq
          exact hq
        · obtain ⟨g', hg'', hq'⟩ := ih (Or.inl ⟨g, hg', hq⟩)
          exact ⟨g', List.mem_cons_of_mem _ hg'', hq'⟩
      · obtain ⟨g', hg'', hq'⟩ := ih (Or.inr hqp)
        exact ⟨g', List.mem_cons_of_mem _ hg'', hq'⟩

theorem groupFold_mem : ∀ (ps : List Printable)
    (acc : List (String × List Printable)) (q : Printable),
    ((∃ g ∈ acc, q ∈ g.2) ∨ q ∈ ps) →
    ∃ g ∈ ps.foldl (fun acc p => addToGroup (p.category.getD "utils") p acc) acc,
      q ∈ g.2 := by
  intro ps
  induction ps with
  | nil =>
    intro acc q h
    rcases h with h | h
    · exact h
    · exact absurd h (List.not_mem_nil q)
  | cons p ps' ih =>
    intro acc q h
    apply ih
    rcases h with h | h
    · exact Or.inl (addToGroup_mem (Or.inl h))
    · rcases List.mem_cons.mp h with rfl | h'
      · exact Or.inl (addToGroup_mem (Or.inr rfl))
      · exact Or.inr h'

/-- Claim C8: in the rendered body, printables are grouped by `category`
with absent categories defaulting to `"utils"`; the groups come sorted by
category name under the string order; within a group the rendered
sequence is sorted by `name` under the string order — for two printables
in the same group the lexicographically smaller name comes strictly
before — and the sort is stable: each group holds its printables in
original declaration order, and name-ties keep that relative order in the
sorted output. -/
theorem printModule_grouping (module : Module) :
    printModuleContent module
      = ((moduleGroups module).mapM fun (g : String × List Printable) => do
          let blocks ← (g.2.mergeSort nameLe).mapM fromPrintable
          return String.intercalate "\n" (h1 g.1 :: blocks)).map
            (String.intercalate "\n")
    ∧ (∀ g ∈ moduleGroups module, ∀ p ∈ g.2, p.category.getD "utils" = g.1)
    ∧ (∀ p ∈ getPrintables module, ∃ g ∈ moduleGroups module, p ∈ g.2)
    ∧ List.Pairwise (fun a b => categoryLe a b = true) (moduleGroups module)
    ∧ (∀ g ∈ moduleGroups module,
        List.Pairwise (fun a b => nameLe a b = true) (g.2.mergeSort nameLe))
    ∧ (∀ g ∈ moduleGroups module, g.2.Sublist (getPrintables module))
    ∧ (∀ g ∈ moduleGroups module, ∀ p q : Printable, p.name = q.name →
        [p, q].Sublist g.2 → [p, q].Sublist (g.2.mergeSort nameLe)) := by
  refine ⟨?_, ?_, ?_, ?_, ?_, ?_, ?_⟩
  · show (do
        let rendered ← (moduleGroups module).mapM fun g => do
          let blocks ← (g.2.mergeSort nameLe).mapM fromPrintable
          return String.intercalate "\n" (h1 g.1 :: blocks)
        return String.intercalate "\n" rendered : Except String String) = _
    exact except_bind_pure_map _ _
  · intro g hg p hp
    have hg' : g ∈ groupByCategory (getPrintables module) :=
      List.mem_mergeSort.mp hg
    exact groupFold_keys (getPrintables module) []
      (fun g' hg' => absurd hg' (List.not_mem_nil g')) g hg' p hp
  · intro p hp
    obtain ⟨g, hg, hmem⟩ := groupFold_mem (getPrintables module) [] p (Or.inr hp)
    exact ⟨g, List.mem_mergeSort.mpr hg, hmem⟩
  · exact List.sorted_mergeSort categoryLe_trans categoryLe_total _
  · intro g _
    exact List.sorted_mergeSort nameLe_trans nameLe_total _
  · intro g hg
    have hg' : g ∈ groupByCategory (getPrintables module) :=
      List.mem_mergeSort.mp hg
    have h := groupFold_sublist (getPrintables module) [] []
      (fun g' hg' => absurd hg' (List.not_mem_nil g')) g hg'
    simpa using h
  · intro g _ p q hname hsub
    have hle : nameLe p q = true := by
      unfold nameLe
      rw [hname]
      exact lexLe_rfl _
    exact List.mergeSort_stable_pair nameLe_trans nameLe_total hle hsub

/-- Claim C8 witness: the sorted-group invariant at a concrete module. -/
theorem printModule_grouping_witness :
    List.Pairwise (fun a b => categoryLe a b = true)
      (moduleGroups moduleWithOneExample) :=
  (printModule_grouping moduleWithOneExample).2.2.2.1

/-!  Claim C9: `_config.yml` patching. -/

theorem string_mk_data (s : String) : String.mk s.data = s := rfl

theorem splitLinesChars_no_newline : ∀ {l : List Char}, '\n' ∉ l →
    splitLinesChars l = [l] := by
  intro l
  induction l with
  | nil => intro _; rfl
  | cons c cs ih =>
    intro h
    have hc : c ≠ '\n' := fun hh => h (hh ▸ List.mem_cons_self _ _)
    have hcs : '\n' ∉ cs := fun hh => h (List.mem_cons_of_mem _ hh)
    unfold splitLinesChars
    rw [if_neg hc, ih hcs]

theorem splitLinesChars_append : ∀ {l : List Char} (rest : List Char),
    '\n' ∉ l →
    splitLinesChars (l ++ '\n' :: rest) = l :: splitLinesChars rest := by
  intro l
  induction l with
  | nil =>
    intro rest _
    show splitLinesChars ('\n' :: rest) = [] :: splitLinesChars rest
    rw [splitLinesChars]
    rw [if_pos rfl]
  | cons c cs ih =>
    intro rest h
    have hc : c ≠ '\n' := fun hh => h (hh ▸ List.mem_cons_self _ _)
    have hcs : '\n' ∉ cs := fun hh => h (List.mem_cons_of_mem _ hh)
    show splitLinesChars (c :: (cs ++ '\n' :: rest))
      = (c :: cs) :: splitLinesChars rest
    rw [splitLinesChars]
    rw [if_neg hc, ih rest hcs]

theorem splitLines_joinLines : ∀ (lines : List String), lines ≠ [] →
    (∀ l ∈ lines, '\n' ∉ l.data) → splitLines (joinLines lines) = lines := by
  intro lines
  induction lines with
  | nil => intro h _; exact absurd rfl h
  | cons l ls ih =>
    intro _ hn
    cases ls with
    | nil =>
      show splitLines l = [l]
      unfold splitLines
      rw [splitLinesChars_no_newline (hn l (List.mem_singleton.mpr rfl))]
      rfl
    | cons l2 ls' =>
      have hl : '\n' ∉ l.data := hn l (List.mem_cons_self _ _)
      show splitLines (l ++ "\n" ++ joinLines (l2 :: ls')) = l :: l2 :: ls'
      have hdata : (l ++ "\n" ++ joinLines (l2 :: ls')).data
          = l.data ++ '\n' :: (joinLines (l2 :: ls')).data := by
        simp [String.data_append]
      unfold splitLines
      rw [hdata, splitLinesChars_append _ hl]
      simp only [List.map_cons, string_mk_data]
      congr 1
      exact ih (by simp) (fun x hx => hn x (List.mem_cons_of_mem _ hx))

theorem patchFirst_append {pred : String → Bool} {nl : String} :
    ∀ (A : List String) (x : String) (rest : List String),
    (∀ l ∈ A, pred l = false) → pred x = true →
    patchFirst pred nl (A ++ x :: rest) = A ++ nl :: rest := by
  intro A
  induction A with
  | nil =>
    intro x rest _ hx
    show patchFirst pred nl (x :: rest) = nl :: rest
    unfold patchFirst
    rw [if_pos hx]
  | cons a A' ih =>
    intro x rest hA hx
    have ha : pred a = false := hA a (List.mem_cons_self _ _)
    show patchFirst pred nl (a :: (A' ++ x :: rest)) = a :: (A' ++ nl :: rest)
    unfold patchFirst
    rw [if_neg (by simp [ha]),
      ih x rest (fun l hl => hA l (List.mem_cons_of_mem _ hl)) hx]

theorem patchGitHub_append (cfg : Config) :
    ∀ (P : List String) (g1 g2 : String) (D : List String) (keep : String),
    (∀ l ∈ P, isGitHubHeader l = false) → isGitHubHeader g1 = true →
    githubLineTail g2 = some keep →
    patchGitHub cfg (P ++ g1 :: g2 :: D)
      = P ++ ("  '" ++ cfg.projectName ++ " on GitHub':")
          :: ("    - '" ++ cfg.projectHomepage ++ "'" ++ keep) :: D := by
  intro P
  induction P with
  | nil =>
    intro g1 g2 D keep _ hg1 hg2
    show patchGitHub cfg (g1 :: g2 :: D) = _
    unfold patchGitHub
    rw [if_pos hg1, hg2]
    rfl
  | cons a P' ih =>
    intro g1 g2 D keep hP hg1 hg2
    have ha : isGitHubHeader a = false := hP a (List.mem_cons_self _ _)
    cases P' with
    | nil =>
      show patchGitHub cfg (a :: g1 :: g2 :: D) = a :: _
      unfold patchGitHub
      rw [if_neg (by simp [ha])]
      exact congrArg (a :: ·)
        (ih g1 g2 D keep (fun l hl => absurd hl (List.not_mem_nil l)) hg1 hg2)
    | cons b P'' =>
      show patchGitHub cfg (a :: b :: (P'' ++ g1 :: g2 :: D)) = a :: _
      unfold patchGitHub
      rw [if_neg (by simp [ha])]
      exact congrArg (a :: ·)
        (ih g1 g2 D keep (fun l hl => hP l (List.mem_cons_of_mem _ hl)) hg1 hg2)

/-- Claim C9: when `_config.yml` exists, the produced replacement patches
exactly three spots — the `remote_theme:` line, the `search_enabled:`
line, and the two-line GitHub aux-link block — and every other line is
carried over verbatim (the text after the aux-link's closing quote
included); the file is marked overwritable.  When it does not exist, the
file is created from the template, not overwritable. -/
theorem getConfigYML_patch (cfg : Config) (cwd : String)
    (A B C D : List String) (tl sl g1 g2 keep prev : String)
    (hnl : ∀ l ∈ A ++ tl :: (B ++ sl :: (C ++ g1 :: g2 :: D)), '\n' ∉ l.data)
    (hA : ∀ l ∈ A, lineStartsWith "remote_theme:" l = false)
    (htl : lineStartsWith "remote_theme:" tl = true)
    (hsAB : ∀ l ∈ A ++ B, lineStartsWith "search_enabled:" l = false)
    (hsl : lineStartsWith "search_enabled:" sl = true)
    (hgh : ∀ l ∈ A ++ (B ++ C), isGitHubHeader l = false)
    (hg1 : isGitHubHeader g1 = true)
    (hg2 : githubLineTail g2 = some keep)
    (hv1 : '\n' ∉ cfg.theme.data) (hv2 : '\n' ∉ cfg.projectName.data)
    (hv3 : '\n' ∉ cfg.projectHomepage.data) :
    getConfigYML cfg cwd true
        (joinLines (A ++ tl :: (B ++ sl :: (C ++ g1 :: g2 :: D))))
      = makeFile (pathJoin [cwd, cfg.outDir, "_config.yml"])
          (joinLines (A ++ ("remote_theme: " ++ cfg.theme)
            :: (B ++ ("search_enabled: " ++ boolString cfg.enableSearch)
            :: (C ++ ("  '" ++ cfg.projectName ++ " on GitHub':")
            :: ("    - '" ++ cfg.projectHomepage ++ "'" ++ keep) :: D)))) true
    ∧ getConfigYML cfg cwd false prev
      = makeFile (pathJoin [cwd, cfg.outDir, "_config.yml"])
          (configYMLTemplate cfg) false := by
  constructor
  · have hcontent : resolveConfigYML
        (joinLines (A ++ tl :: (B ++ sl :: (C ++ g1 :: g2 :: D)))) cfg
        = joinLines (A ++ ("remote_theme: " ++ cfg.theme)
            :: (B ++ ("search_enabled: " ++ boolString cfg.enableSearch)
            :: (C ++ ("  '" ++ cfg.projectName ++ " on GitHub':")
            :: ("    - '" ++ cfg.projectHomepage ++ "'" ++ keep) :: D))) := by
      simp only [resolveConfigYML]
      rw [splitLines_joinLines _ (by simp) hnl]
      rw [patchFirst_append A tl _ hA htl]
      rw [show A ++ ("remote_theme: " ++ cfg.theme)
            :: (B ++ sl :: (C ++ g1 :: g2 :: D))
          = (A ++ ("remote_theme: " ++ cfg.theme) :: B)
            ++ sl :: (C ++ g1 :: g2 :: D) from by simp]
      rw [patchFirst_append _ sl _ ?hsfalse hsl]
      case hsfalse =>
        intro l hl
        rcases List.mem_append.mp hl with hA' | hnt
        · exact hsAB l (List.mem_append.mpr (Or.inl hA'))
        · rcases List.mem_cons.mp hnt with heq | hB
          · subst heq
            rfl
          · exact hsAB l (List.mem_append.mpr (Or.inr hB))
      rw [show (A ++ ("remote_theme: " ++ cfg.theme) :: B)
            ++ ("search_enabled: " ++ boolString cfg.enableSearch)
              :: (C ++ g1 :: g2 :: D)
          = ((A ++ ("remote_theme: " ++ cfg.theme) :: B)
              ++ ("search_enabled: " ++ boolString cfg.enableSearch) :: C)
            ++ g1 :: g2 :: D from by simp]
      rw [patchGitHub_append cfg _ g1 g2 D keep ?hghfalse hg1 hg2]
      case hghfalse =>
        intro l hl
        rcases List.mem_append.mp hl with hl' | hns
        · rcases List.mem_append.mp hl' with hA' | hnt
          · exact hgh l (List.mem_append.mpr (Or.inl hA'))
          · rcases List.mem_cons.mp hnt with heq | hB
            · subst heq
              rfl
            · exact hgh l (List.mem_append.mpr (Or.inr (List.mem_append.mpr
                (Or.inl hB))))
        · rcases List.mem_cons.mp hns with heq | hC
          · subst heq
            rfl
          · exact hgh l (List.mem_append.mpr (Or.inr (List.mem_append.mpr
              (Or.inr hC))))
      congr 1
      simp
    show makeFile _ (resolveConfigYML _ cfg) true = _
    rw [hcontent]
  · rfl

/-- Claim C9 witness: a concrete four-line `_config.yml` patched at its
three fields, with `cfgDemo`'s values substituted in. -/
theorem getConfigYML_patch_witness :
    getConfigYML cfgDemo "/repo" true
        (joinLines ["remote_theme: old", "search_enabled: false",
          "  'proj on GitHub':", "    - 'https://old'"])
      = makeFile "/repo/docs/_config.yml"
          (joinLines ["remote_theme: mikearnaldi/just-the-docs",
            "search_enabled: true", "  'my-lib on GitHub':",
            "    - 'https://github.com/tylors/effect-docgen'"]) true :=
  (getConfigYML_patch cfgDemo "/repo" [] [] [] [] "remote_theme: old"
    "search_enabled: false" "  'proj on GitHub':" "    - 'https://old'" "" ""
    (by decide) (by decide) (by decide) (by decide) (by decide) (by decide)
    (by decide) (by decide) (by decide) (by decide) (by decide)).1

end Docgen
